import Mathlib

/-!
Verification of the catalog storage-and-mutation engine: a shallow embedding of
the sharded product data tools (FieldManager), the product loader
(ProductLoader), and the query service (ProductService), together with proofs
of the behavioural properties claimed for them.
-/

set_option linter.unusedVariables false
set_option linter.unnecessarySeqFocus false

namespace Catalog

/-! ## JSON records and per-record field operations (field-manager.ts) -/

/-- Primitive JSON field values as they occur in the product shard files.
Field values in this dataset are atoms (strings, numbers, booleans, null);
nested objects or arrays never occur as field values in the records the
field manager rewrites, so they are not modelled. -/
inductive JValue where
  | null
  | bool (b : Bool)
  | num (n : Int)
  | str (s : String)
  deriving DecidableEq, Repr

/-- A product record as parsed from a shard file: a JavaScript object, that is
an insertion-ordered list of field/value pairs (keys are unique in any object
produced by JSON.parse). -/
abbrev Rec := List (String × JValue)

/-- Model of `product.hasOwnProperty(f)`. -/
def hasField : Rec → String → Bool
  | [], _ => false
  | kv :: rest, f => if kv.1 = f then true else hasField rest f

/-- Model of reading `product[f]`: the value of field `f`, or `none` when the
field is absent (JavaScript `undefined`). -/
def lookupField : Rec → String → Option JValue
  | [], _ => none
  | kv :: rest, f => if kv.1 = f then some kv.2 else lookupField rest f

/-- Model of the object-spread update with a computed key: when the field is
already present its value is replaced at its existing position (JavaScript
keeps the original insertion position of an overwritten key), otherwise the
new field is appended at the end. -/
def setField : Rec → String → JValue → Rec
  | [], f, v => [(f, v)]
  | kv :: rest, f, v => if kv.1 = f then (f, v) :: rest else kv :: setField rest f v

/-- Per-record transform of `FieldManager.addField`: spread the record and set
field `f` to its existing value when present, to the default otherwise. -/
def addFieldRec (f : String) (d : JValue) (r : Rec) : Rec :=
  match lookupField r f with
  | some v => setField r f v
  | none => setField r f d

/-- Per-record transform of `FieldManager.removeField`: destructuring away the
field keeps every other field in order. -/
def removeFieldRec (f : String) : Rec → Rec
  | [] => []
  | kv :: rest => if kv.1 = f then removeFieldRec f rest else kv :: removeFieldRec f rest

/-- Per-record transform of `FieldManager.renameField`: when the record has the
old field, its value is removed from the old key and written under the new key
(appended at the end when the new key was absent); otherwise the record is
returned unchanged. -/
def renameFieldRec (oldName newName : String) (r : Rec) : Rec :=
  match lookupField r oldName with
  | some v => setField (removeFieldRec oldName r) newName v
  | none => r

/-- Per-record transform of `FieldManager.updateField`: the field is set to the
updater applied to the current value (undefined when absent) and the record. -/
def updateFieldRec (f : String) (updater : Option JValue → Rec → JValue) (r : Rec) : Rec :=
  setField r f (updater (lookupField r f) r)

/-! ## The field manager's shard store and file-system behaviour -/

/-- The durable state the field manager manipulates: the shard files (one list
of records per series file, in the order `glob.sync` returned them) and the
backup snapshots (most recent first), each a copy of the whole shard set. -/
structure Store where
  shards : List (List Rec)
  backups : List (List (List Rec))
  deriving DecidableEq, Repr

/-- Outcome oracle for the file-system calls a mutation performs: whether the
backup step succeeds, and whether the read-and-write of the i-th shard file
succeeds. -/
structure FsOracle where
  backupOk : Bool
  fileOk : Nat → Bool

/-- The error a mutation can propagate to its caller. Only the backup step
throws out of a mutation: per-file errors are caught inside the loop body
and merely logged. -/
inductive MutErr where
  | snapshotError
  deriving DecidableEq, Repr

/-- The per-file loop shared by the four mutations: each shard file is read,
transformed and rewritten inside a try/catch, so a file whose read or write
fails is left unchanged and the loop continues with the next file. -/
def mutateFiles (fs : FsOracle) (tr : List Rec → List Rec) : Nat → List (List Rec) → List (List Rec)
  | _, [] => []
  | i, s :: rest => (if fs.fileOk i then tr s else s) :: mutateFiles fs tr (i + 1) rest

/-- The common shape of `addField`, `renameField`, `updateField` and
`removeField`: create a backup of every shard file, then run the per-file
loop. A failure of the backup step propagates out before any shard file is
written. -/
def runMutation (fs : FsOracle) (tr : List Rec → List Rec) (st : Store) : Store × Option MutErr :=
  if fs.backupOk then
    (⟨mutateFiles fs tr 0 st.shards, st.shards :: st.backups⟩, none)
  else
    (st, some MutErr.snapshotError)

/-- `FieldManager.addField` over the whole store. -/
def addField (fs : FsOracle) (f : String) (d : JValue) (st : Store) : Store × Option MutErr :=
  runMutation fs (List.map (addFieldRec f d)) st

/-- `FieldManager.renameField` over the whole store. -/
def renameField (fs : FsOracle) (oldName newName : String) (st : Store) : Store × Option MutErr :=
  runMutation fs (List.map (renameFieldRec oldName newName)) st

/-- `FieldManager.updateField` over the whole store. -/
def updateField (fs : FsOracle) (f : String) (updater : Option JValue → Rec → JValue)
    (st : Store) : Store × Option MutErr :=
  runMutation fs (List.map (updateFieldRec f updater)) st

/-- `FieldManager.removeField` over the whole store. -/
def removeField (fs : FsOracle) (f : String) (st : Store) : Store × Option MutErr :=
  runMutation fs (List.map (removeFieldRec f)) st

/-- The oracle under which every file-system call succeeds. -/
def allOk : FsOracle := ⟨true, fun _ => true⟩

/-! ## The product record type (product-schema.ts / types/database) -/

/-- A catalog record with the fields the service layer reads. Prices are
modelled as integers (the claims under verification only compare them), and
the release date keeps its source form, an ISO 8601 date string. -/
structure Product where
  id : String
  name : String
  nameEn : String
  series : String
  rarityLevel : String
  currentPrice : Int
  originalPrice : Int
  mainColor : String
  imageUrl : String
  releaseStatus : String
  releaseDate : String
  appearanceRate : String
  deriving DecidableEq, Repr

/-! ## Query engine (productService.ts getProducts) -/

/-- The parameter object of `ProductService.getProducts`, with the source's
defaults. -/
structure ProductListRequest where
  page : Nat := 1
  limit : Nat := 20
  search : String := ""
  rarity : List String := []
  series : List String := []
  minPrice : Option Int := none
  maxPrice : Option Int := none
  sortBy : String := "name"
  sortOrder : String := "asc"

/-- The response object of `ProductService.getProducts`. -/
structure ProductListResponse where
  products : List Product
  total : Nat
  page : Nat
  totalPages : Nat
  deriving DecidableEq, Repr

/-- Decides whether `needle` occurs as a contiguous run inside `hay`: the model
of JavaScript `String.prototype.includes` (on the character sequences of the
two strings). -/
def charsContain (hay needle : List Char) : Bool :=
  match hay with
  | [] => needle.isEmpty
  | _ :: rest => needle.isPrefixOf hay || charsContain rest needle

/-- Model of `hay.includes(needle)`. -/
def strIncludes (hay needle : String) : Bool :=
  charsContain hay.data needle.data

/-- ASCII lowering of one character: the model of what `toLowerCase` does to
the characters occurring in this catalog's names. -/
def lowerChar (c : Char) : Char :=
  if 65 ≤ c.toNat ∧ c.toNat ≤ 90 then Char.ofNat (c.toNat + 32) else c

/-- Model of `s.toLowerCase()`. -/
def jsToLower (s : String) : String :=
  String.mk (s.data.map lowerChar)

/-- Model of `s.trim()`: strip whitespace from both ends. -/
def jsTrim (s : String) : String :=
  String.mk
    (((s.data.dropWhile Char.isWhitespace).reverse.dropWhile Char.isWhitespace).reverse)

/-- The text-search predicate of getProducts: case-insensitive substring match
against the primary name, or against the secondary name when that one is
non-empty (the source guards it with JavaScript truthiness). -/
def matchesSearch (search : String) (p : Product) : Bool :=
  let searchLower := jsToLower search
  strIncludes (jsToLower p.name) searchLower ||
    (!(p.nameEn == "") && strIncludes (jsToLower p.nameEn) searchLower)

/-- The filter pipeline of getProducts: text search, then rarity, then series,
then the two price bounds, each applied only when the parameter is set. -/
def filterProducts (ps : ProductListRequest) (l : List Product) : List Product :=
  let l1 := if jsTrim ps.search ≠ "" then l.filter (matchesSearch ps.search) else l
  let l2 := if ps.rarity ≠ [] then l1.filter (fun p => ps.rarity.contains p.rarityLevel) else l1
  let l3 := if ps.series ≠ [] then l2.filter (fun p => ps.series.contains p.series) else l2
  let l4 := match ps.minPrice with
    | some m => l3.filter (fun p => m ≤ p.currentPrice)
    | none => l3
  match ps.maxPrice with
  | some m => l4.filter (fun p => p.currentPrice ≤ m)
  | none => l4

/-- The fixed ordinal rank table of the rarity sort, including the fallback
`|| 0` for a rarity outside the table. -/
def rarityOrder (s : String) : Int :=
  if s = "normal" then 1
  else if s = "rare" then 2
  else if s = "super_rare" then 3
  else if s = "hidden" then 4
  else if s = "sp" then 5
  else 0

/-- The comparison value a product contributes under a given sort key: a number
for price, rarity rank and release date, a lowercased string for the default
name sort. -/
inductive SortVal where
  | n (x : Int)
  | s (x : String)
  deriving DecidableEq, Repr

/-- The natural number a string of decimal digits denotes. -/
def digitsToNat (l : List Char) : Nat :=
  l.foldl (fun acc c => acc * 10 + (c.toNat - 48)) 0

/-- Order-preserving model of `new Date(d).getTime()` for the ISO 8601 date
strings stored in `releaseDate`: year, month and day are packed into one
integer so that chronological comparison agrees with the source's timestamp
comparison. -/
def dateNum (d : String) : Int :=
  (digitsToNat (d.data.take 4) * 10000 +
    digitsToNat ((d.data.drop 5).take 2) * 100 +
    digitsToNat ((d.data.drop 8).take 2) : Nat)

/-- The sort key of getProducts: the `switch (sortBy)` that picks the compared
value. -/
def sortVal (sortBy : String) (p : Product) : SortVal :=
  if sortBy = "price" then .n p.currentPrice
  else if sortBy = "rarity" then .n (rarityOrder p.rarityLevel)
  else if sortBy = "release_date" then .n (dateNum p.releaseDate)
  else .s (jsToLower p.name)

/-- JavaScript `<` restricted to the comparisons getProducts performs: both
values always come from the same sort key, so only number-number and
string-string comparisons occur. -/
def svLt : SortVal → SortVal → Bool
  | .n a, .n b => decide (a < b)
  | .s a, .s b => decide (a < b)
  | _, _ => false

/-- The comparator passed to `filteredProducts.sort`. -/
def cmpProducts (sortBy sortOrder : String) (a b : Product) : Int :=
  let aValue := sortVal sortBy a
  let bValue := sortVal sortBy b
  if svLt aValue bValue then (if sortOrder = "asc" then -1 else 1)
  else if svLt bValue aValue then (if sortOrder = "asc" then 1 else -1)
  else 0

/-- Insertion step of the stable sort: the new element is placed before the
first element it does not compare strictly greater than. -/
def sortInsert (cmp : Product → Product → Int) (x : Product) : List Product → List Product
  | [] => [x]
  | y :: ys => if cmp x y ≤ 0 then x :: y :: ys else y :: sortInsert cmp x ys

/-- Model of `Array.prototype.sort(cmp)`: a stable comparison sort (stability
is mandated by the ECMAScript specification). -/
def stableSort (cmp : Product → Product → Int) : List Product → List Product
  | [] => []
  | x :: xs => sortInsert cmp x (stableSort cmp xs)

/-- Model of `Math.ceil(a / b)` for natural `a` and positive natural `b`. -/
def ceilDiv (a b : Nat) : Nat := (a + b - 1) / b

/-- The filtered and sorted working list getProducts builds before slicing. -/
def sortedFiltered (ps : ProductListRequest) (l : List Product) : List Product :=
  stableSort (cmpProducts ps.sortBy ps.sortOrder) (filterProducts ps l)

/-- `ProductService.getProducts`: filter, sort, then page-slice
`[(page-1)*limit, page*limit)` of the working list. -/
def getProducts (ps : ProductListRequest) (l : List Product) : ProductListResponse :=
  let filtered := sortedFiltered ps l
  let total := filtered.length
  let totalPages := ceilDiv total ps.limit
  let offset := (ps.page - 1) * ps.limit
  ⟨(filtered.drop offset).take ps.limit, total, ps.page, totalPages⟩

/-- `getProducts` as a transformer of the module-level collection: the source
copies the collection (`[...productsData]`) and filters and sorts the copy, so
the module state it returns to is the one it started from. -/
def getProductsSt (store : List Product) (ps : ProductListRequest) :
    List Product × ProductListResponse :=
  (store, getProducts ps store)

/-! ## Single-record lookup (productService.ts getProductById) -/

/-- The possible outcomes of a detail lookup, separating a thrown exception
from a hypothetical NotFound result value (the latter is what the claim under
verification asserts and what the source never produces). -/
inductive DetailOutcome where
  | ok (product : Product) (relatedProducts : List Product)
  | notFoundValue
  | thrown (msg : String)
  deriving DecidableEq, Repr

/-- `ProductService.getProductById`: find the record by identifier; when it is
absent the source throws an Error, otherwise it returns the record together
with up to four other records of the same series. -/
def getProductById (l : List Product) (id : String) : DetailOutcome :=
  match l.find? (fun p => p.id == id) with
  | none => .thrown "找不到指定的產品"
  | some p => .ok p ((l.filter (fun q => q.series == p.series && !(q.id == id))).take 4)

/-! ## Catalog loader (ProductLoader) -/

/-- The mutable class state of `ProductLoader`, together with bookkeeping for
the verification: how many times `performLoad` has been started, and a fresh
identifier for each in-flight load promise. -/
structure LoaderState where
  allProducts : Option (List Product)
  loadPromise : Option Nat
  performLoadCount : Nat
  nextId : Nat
  deriving DecidableEq, Repr

/-- The loader state at process start. -/
def initLoader : LoaderState := ⟨none, none, 0, 0⟩

/-- What one call of `loadAllProducts` yields at its return point: either the
cached value immediately, or the shared in-flight promise it awaits. -/
inductive CallResult where
  | value (ps : List Product)
  | awaitPromise (id : Nat)
  deriving DecidableEq, Repr

/-- One call of `loadAllProducts` up to its suspension point. The synchronous
prefix of the method runs atomically on the JavaScript event loop: return the
cache when it is populated, join the in-flight promise when one exists, and
otherwise start `performLoad` (counted) and publish its promise. -/
def callStep (s : LoaderState) : LoaderState × CallResult :=
  match s.allProducts with
  | some ps => (s, .value ps)
  | none =>
    match s.loadPromise with
    | some pid => (s, .awaitPromise pid)
    | none =>
      (⟨none, some s.nextId, s.performLoadCount + 1, s.nextId + 1⟩, .awaitPromise s.nextId)

/-- `n` calls of `loadAllProducts` issued back to back, all before any load
completes: the state after them and the outcome each caller observed. -/
def iterCalls : Nat → LoaderState → LoaderState × List CallResult
  | 0, s => (s, [])
  | n + 1, s =>
    let (s1, r) := callStep s
    let (s2, rs) := iterCalls n s1
    (s2, r :: rs)

/-- The in-flight load resolving with `result`: every waiter's continuation
stores the value in the cache and clears the promise field. -/
def resolveStep (s : LoaderState) (result : List Product) : LoaderState :=
  ⟨some result, none, s.performLoadCount, s.nextId⟩

/-- `ProductLoader.resetCache`: clear the cache and the in-flight state. -/
def resetCache (s : LoaderState) : LoaderState :=
  ⟨none, none, s.performLoadCount, s.nextId⟩

/-- The value a caller eventually receives, given the value each promise
identifier resolves with. -/
def eventualValue (res : CallResult) (resolution : Nat → List Product) : List Product :=
  match res with
  | .value v => v
  | .awaitPromise i => resolution i

/-! ## Shard loading (ProductLoader.performLoad) -/

/-- One entry of the `_index.json` series list. -/
structure SeriesInfo where
  key : String
  fileName : String
  deriving DecidableEq, Repr

/-- The `_index.json` contents `performLoad` reads. -/
structure ProductIndex where
  series : List SeriesInfo
  totalSeries : Nat
  deriving DecidableEq, Repr

/-- The per-series loader inside `performLoad`: the dynamic import of one
series file runs inside a try/catch, so a file whose import or parse fails
contributes an empty list (after a logged warning) instead of aborting the
load. -/
def loadSeriesResult (imports : String → Except String (List Product))
    (info : SeriesInfo) : List Product :=
  match imports info.fileName with
  | .ok ps => ps
  | .error _ => []

/-- `ProductLoader.performLoad`: read the index, load every listed series file
(each individually guarded), and flatten the results in index order. A failure
of the index read itself is rethrown as the fatal load error. -/
def performLoad (indexResult : Except String ProductIndex)
    (imports : String → Except String (List Product)) : Except String (List Product) :=
  match indexResult with
  | .error _ => .error "無法加載產品數據"
  | .ok index => .ok ((index.series.map (loadSeriesResult imports)).flatten)

/-! ## Concrete data used by witnesses and counterexamples -/

/-- A two-shard store with one record per shard, mirroring the two-shard
scenario of the specification's testable properties. -/
def demoStore : Store :=
  ⟨[[[("id", JValue.str "p1"), ("currentPrice", JValue.num 100)]],
    [[("id", JValue.str "p2"), ("currentPrice", JValue.num 50)]]], []⟩

/-- An oracle whose backup step fails. -/
def failBackupFs : FsOracle := ⟨false, fun _ => true⟩

/-- An oracle under which the write of the first shard file fails and every
other file operation succeeds. -/
def failFirstFs : FsOracle := ⟨true, fun i => i != 0⟩

/-! ## Record-level lemmas about the field operations -/

theorem hasField_eq_isSome (r : Rec) (f : String) :
    hasField r f = (lookupField r f).isSome := by
  induction r with
  | nil => rfl
  | cons kv rest ih =>
    by_cases h : kv.1 = f <;> simp [hasField, lookupField, h, ih]

theorem lookupField_setField (r : Rec) (f : String) (v : JValue) :
    lookupField (setField r f v) f = some v := by
  induction r with
  | nil => simp [setField, lookupField]
  | cons kv rest ih =>
    by_cases h : kv.1 = f <;> simp [setField, h, lookupField, ih]

theorem setField_lookup_self (r : Rec) (f : String) (v : JValue)
    (h : lookupField r f = some v) : setField r f v = r := by
  induction r with
  | nil => simp [lookupField] at h
  | cons kv rest ih =>
    by_cases hk : kv.1 = f
    · simp [lookupField, hk] at h
      have hkv : (f, v) = kv := by cases kv; simp_all
      simp [setField, hk, hkv]
    · simp [lookupField, hk] at h
      simp [setField, hk, ih h]

theorem setField_eq_append (r : Rec) (f : String) (v : JValue)
    (h : hasField r f = false) : setField r f v = r ++ [(f, v)] := by
  induction r with
  | nil => simp [setField]
  | cons kv rest ih =>
    by_cases hk : kv.1 = f
    · simp [hasField, hk] at h
    · simp [hasField, hk] at h
      simp [setField, hk, ih h]

theorem lookupField_removeFieldRec_ne (r : Rec) (f g : String) (h : g ≠ f) :
    lookupField (removeFieldRec f r) g = lookupField r g := by
  induction r with
  | nil => rfl
  | cons kv rest ih =>
    by_cases hk : kv.1 = f
    · have hg : ¬ kv.1 = g := fun hx => h (hx ▸ hk)
      have h1 : removeFieldRec f (kv :: rest) = removeFieldRec f rest := by
        simp [removeFieldRec, hk]
      have h2 : lookupField (kv :: rest) g = lookupField rest g := by
        simp [lookupField, hg]
      rw [h1, h2, ih]
    · have h1 : removeFieldRec f (kv :: rest) = kv :: removeFieldRec f rest := by
        simp [removeFieldRec, hk]
      by_cases hg : kv.1 = g
      · rw [h1]
        simp [lookupField, hg]
      · rw [h1]
        simp [lookupField, hg, ih]

theorem hasField_removeFieldRec_self (r : Rec) (f : String) :
    hasField (removeFieldRec f r) f = false := by
  induction r with
  | nil => rfl
  | cons kv rest ih =>
    by_cases hk : kv.1 = f <;> simp [removeFieldRec, hasField, hk, ih]

theorem removeFieldRec_eq_self (r : Rec) (f : String) (h : hasField r f = false) :
    removeFieldRec f r = r := by
  induction r with
  | nil => rfl
  | cons kv rest ih =>
    by_cases hk : kv.1 = f
    · simp [hasField, hk] at h
    · simp [hasField, hk] at h
      simp [removeFieldRec, hk, ih h]

theorem lookupField_append_right (r s : Rec) (f : String) (h : hasField r f = false) :
    lookupField (r ++ s) f = lookupField s f := by
  induction r with
  | nil => rfl
  | cons kv rest ih =>
    by_cases hk : kv.1 = f
    · simp [hasField, hk] at h
    · simp [hasField, hk] at h
      simp [lookupField, hk, ih h]

theorem lookupField_append_left (r s : Rec) (f : String) (v : JValue)
    (h : lookupField r f = some v) : lookupField (r ++ s) f = some v := by
  induction r with
  | nil => simp [lookupField] at h
  | cons kv rest ih =>
    by_cases hk : kv.1 = f
    · simp [lookupField, hk] at h ⊢
      exact h
    · simp [lookupField, hk] at h ⊢
      exact ih h

theorem hasField_removeFieldRec_ne (r : Rec) (f g : String) (h : g ≠ f) :
    hasField (removeFieldRec f r) g = hasField r g := by
  rw [hasField_eq_isSome, hasField_eq_isSome, lookupField_removeFieldRec_ne r f g h]

theorem removeFieldRec_append (f : String) (r s : Rec) :
    removeFieldRec f (r ++ s) = removeFieldRec f r ++ removeFieldRec f s := by
  induction r with
  | nil => rfl
  | cons kv rest ih =>
    by_cases hk : kv.1 = f <;> simp [removeFieldRec, hk, ih]

theorem addFieldRec_of_lookup_some (f : String) (d : JValue) (r : Rec) (v : JValue)
    (h : lookupField r f = some v) : addFieldRec f d r = setField r f v := by
  unfold addFieldRec
  rw [h]

theorem addFieldRec_of_lookup_none (f : String) (d : JValue) (r : Rec)
    (h : lookupField r f = none) : addFieldRec f d r = setField r f d := by
  unfold addFieldRec
  rw [h]

theorem renameFieldRec_of_lookup_some (o n : String) (r : Rec) (v : JValue)
    (h : lookupField r o = some v) :
    renameFieldRec o n r = setField (removeFieldRec o r) n v := by
  unfold renameFieldRec
  rw [h]

theorem renameFieldRec_of_lookup_none (o n : String) (r : Rec)
    (h : lookupField r o = none) : renameFieldRec o n r = r := by
  unfold renameFieldRec
  rw [h]

theorem addFieldRec_idem (f : String) (d : JValue) (r : Rec) :
    addFieldRec f d (addFieldRec f d r) = addFieldRec f d r := by
  have h1 : ∃ v, lookupField (addFieldRec f d r) f = some v := by
    cases hl : lookupField r f with
    | some v =>
      rw [addFieldRec_of_lookup_some f d r v hl]
      exact ⟨v, lookupField_setField r f v⟩
    | none =>
      rw [addFieldRec_of_lookup_none f d r hl]
      exact ⟨d, lookupField_setField r f d⟩
  obtain ⟨v, hv⟩ := h1
  rw [addFieldRec_of_lookup_some f d _ v hv, setField_lookup_self _ f v hv]

/-! ## Lemmas about the shard-file loop -/

theorem length_mutateFiles (fs : FsOracle) (tr : List Rec → List Rec) :
    ∀ (base : Nat) (shards : List (List Rec)),
      (mutateFiles fs tr base shards).length = shards.length := by
  intro base shards
  induction shards generalizing base with
  | nil => rfl
  | cons s rest ih => simp [mutateFiles, ih]

theorem mutateFiles_getElem (fs : FsOracle) (tr : List Rec → List Rec) :
    ∀ (shards : List (List Rec)) (base i : Nat),
      (mutateFiles fs tr base shards)[i]? =
        (shards[i]?).map (fun s => if fs.fileOk (base + i) then tr s else s) := by
  intro shards
  induction shards with
  | nil => intro base i; simp [mutateFiles]
  | cons s rest ih =>
    intro base i
    cases i with
    | zero => simp [mutateFiles]
    | succ j =>
      have harith : base + 1 + j = base + (j + 1) := by omega
      simp [mutateFiles, ih (base + 1) j, harith]

theorem mutateFiles_map (fs : FsOracle) (tr : List Rec → List Rec)
    (hfs : ∀ j, fs.fileOk j = true) :
    ∀ (base : Nat) (shards : List (List Rec)),
      mutateFiles fs tr base shards = shards.map tr := by
  intro base shards
  induction shards generalizing base with
  | nil => rfl
  | cons s rest ih => simp [mutateFiles, hfs, ih]

theorem map_map_idem {α : Type} (g : α → α) (hg : ∀ x, g (g x) = g x) (l : List α) :
    (l.map g).map g = l.map g := by
  induction l with
  | nil => rfl
  | cons x xs ih => simp [hg, ih]

/-! ## Claim C2 -/

/-- C2: every batch mutation first snapshots the entire pre-mutation shard set
(the new backup holds a copy of every shard file as it was before any write),
and when the snapshot step fails the mutation aborts with the snapshot error
and the store — in particular every shard file — unchanged. -/
theorem backup_snapshot_atomicity (fs : FsOracle) (tr : List Rec → List Rec) (st : Store) :
    (fs.backupOk = true →
      (runMutation fs tr st).1.backups = st.shards :: st.backups) ∧
    (fs.backupOk = false →
      (runMutation fs tr st).1 = st ∧
      (runMutation fs tr st).2 = some MutErr.snapshotError) := by
  constructor <;> intro h <;> simp [runMutation, h]

/-- C2 witness: at a concrete two-shard store, a successful run records the
pre-mutation shards as the newest backup, and a failing snapshot leaves the
store untouched. -/
theorem backup_snapshot_atomicity_witness :
    ((runMutation allOk (List.map (removeFieldRec "currentPrice")) demoStore).1.backups
      = demoStore.shards :: demoStore.backups) ∧
    ((runMutation failBackupFs (List.map (removeFieldRec "currentPrice")) demoStore).1
      = demoStore) :=
  ⟨(backup_snapshot_atomicity allOk (List.map (removeFieldRec "currentPrice")) demoStore).1 rfl,
   ((backup_snapshot_atomicity failBackupFs (List.map (removeFieldRec "currentPrice"))
      demoStore).2 rfl).1⟩

/-! ## Claim C1 -/

/-- C1 (counterexample): the claim says that after the write of shard k fails,
no further shard is written. With two shards and a write failure on the first
one, the claim predicts that both shards stay untouched; the code instead
catches the error inside the per-file loop and still writes the second shard. -/
theorem addField_stops_on_failure_cex :
    ((addField failFirstFs "tag" (JValue.str "new") demoStore).1.shards
      = [[[("id", JValue.str "p1"), ("currentPrice", JValue.num 100)]],
         [[("id", JValue.str "p2"), ("currentPrice", JValue.num 50),
           ("tag", JValue.str "new")]]]) ∧
    ((addField failFirstFs "tag" (JValue.str "new") demoStore).1.shards
      ≠ demoStore.shards) := by
  constructor
  · decide
  · decide

/-- C1 (amended): when the write of shard k fails, the mutation does not stop:
it leaves shard k unchanged, still writes every other shard (before and after
k), keeps the pre-mutation backup present, and completes without propagating
an error. The amended statement is proved for the generic mutation runner, of
which addField, renameField, updateField and removeField are instances. -/
theorem mutation_continues_after_shard_failure (fs : FsOracle) (tr : List Rec → List Rec)
    (st : Store) (k : Nat) (hb : fs.backupOk = true) (hk : fs.fileOk k = false)
    (ho : ∀ j, j ≠ k → fs.fileOk j = true) :
    ((runMutation fs tr st).1.shards.length = st.shards.length) ∧
    (∀ i, i ≠ k → ((runMutation fs tr st).1.shards[i]?) = (st.shards[i]?).map tr) ∧
    ((runMutation fs tr st).1.shards[k]? = st.shards[k]?) ∧
    (st.shards ∈ (runMutation fs tr st).1.backups) ∧
    ((runMutation fs tr st).2 = none) := by
  have hrun : runMutation fs tr st
      = (⟨mutateFiles fs tr 0 st.shards, st.shards :: st.backups⟩, none) := by
    simp [runMutation, hb]
  have hsh : (runMutation fs tr st).1.shards = mutateFiles fs tr 0 st.shards := by
    rw [hrun]
  have hbk : (runMutation fs tr st).1.backups = st.shards :: st.backups := by
    rw [hrun]
  refine ⟨?_, ?_, ?_, ?_, ?_⟩
  · rw [hsh]
    exact length_mutateFiles fs tr 0 st.shards
  · intro i hi
    rw [hsh, mutateFiles_getElem fs tr st.shards 0 i]
    simp [ho i hi]
  · rw [hsh, mutateFiles_getElem fs tr st.shards 0 k]
    simp [hk]
  · rw [hbk]
    exact List.mem_cons_self _ _
  · rw [hrun]

/-- C1 witness for the amended statement: with the first shard's write failing,
the second shard is updated, the first is unchanged, and the backup of the
pre-mutation store is present. -/
theorem mutation_continues_after_shard_failure_witness :
    ((runMutation failFirstFs (List.map (removeFieldRec "currentPrice")) demoStore).1.shards[1]?
      = (demoStore.shards[1]?).map (List.map (removeFieldRec "currentPrice"))) ∧
    ((runMutation failFirstFs (List.map (removeFieldRec "currentPrice")) demoStore).1.shards[0]?
      = demoStore.shards[0]?) ∧
    (demoStore.shards
      ∈ (runMutation failFirstFs (List.map (removeFieldRec "currentPrice")) demoStore).1.backups) := by
  have h := mutation_continues_after_shard_failure failFirstFs
    (List.map (removeFieldRec "currentPrice")) demoStore 0 rfl rfl
    (fun j hj => by simp [failFirstFs, bne_iff_ne]; exact hj)
  exact ⟨h.2.1 1 (by decide), h.2.2.1, h.2.2.2.1⟩

/-! ## Claim C6 -/

/-- C6: addField sets the field only on records that lack it (appending it with
the default value), leaves records that already have the field completely
unchanged, and is therefore idempotent on the shard store. -/
theorem addField_nondestructive_idempotent (f : String) (d : JValue) :
    (∀ r : Rec, hasField r f = true → addFieldRec f d r = r) ∧
    (∀ r : Rec, hasField r f = false → addFieldRec f d r = r ++ [(f, d)]) ∧
    (∀ st : Store,
      ((addField allOk f d (addField allOk f d st).1).1).shards
        = ((addField allOk f d st).1).shards) := by
  refine ⟨?_, ?_, ?_⟩
  · intro r h
    rw [hasField_eq_isSome] at h
    obtain ⟨v, hv⟩ := Option.isSome_iff_exists.mp h
    rw [addFieldRec_of_lookup_some f d r v hv, setField_lookup_self r f v hv]
  · intro r h
    have hl : lookupField r f = none := by
      rw [hasField_eq_isSome] at h
      exact Option.not_isSome_iff_eq_none.mp (by simp [h])
    rw [addFieldRec_of_lookup_none f d r hl, setField_eq_append r f d h]
  · intro st
    have hb : allOk.backupOk = true := rfl
    have hone : ∀ (s : Store), (addField allOk f d s).1
        = ⟨s.shards.map (List.map (addFieldRec f d)), s.shards :: s.backups⟩ := by
      intro s
      simp [addField, runMutation, hb,
        mutateFiles_map allOk (List.map (addFieldRec f d)) (fun _ => rfl) 0]
    rw [hone, hone]
    exact map_map_idem (List.map (addFieldRec f d))
      (fun s => map_map_idem (addFieldRec f d) (addFieldRec_idem f d) s) st.shards

/-- C6 witness: a record that already has the field is unchanged, a record
lacking it gets the default appended, and running the mutation twice on the
demo store leaves the shard files as after one run. -/
theorem addField_nondestructive_idempotent_witness :
    (addFieldRec "tag" (JValue.str "new")
        [("id", JValue.str "p1"), ("tag", JValue.str "old")]
      = [("id", JValue.str "p1"), ("tag", JValue.str "old")]) ∧
    (addFieldRec "tag" (JValue.str "new") [("id", JValue.str "p1")]
      = [("id", JValue.str "p1"), ("tag", JValue.str "new")]) ∧
    (((addField allOk "tag" (JValue.str "new")
        (addField allOk "tag" (JValue.str "new") demoStore).1).1).shards
      = ((addField allOk "tag" (JValue.str "new") demoStore).1).shards) :=
  ⟨(addField_nondestructive_idempotent "tag" (JValue.str "new")).1 _ (by decide),
   (addField_nondestructive_idempotent "tag" (JValue.str "new")).2.1 _ (by decide),
   (addField_nondestructive_idempotent "tag" (JValue.str "new")).2.2 demoStore⟩

/-! ## Claim C7 -/

theorem renameFieldRec_roundtrip_rec (oldName newName : String) (r : Rec)
    (hn : hasField r newName = false) :
    (∀ f, lookupField (renameFieldRec newName oldName (renameFieldRec oldName newName r)) f
        = lookupField r f) ∧
    (hasField r oldName = false →
      renameFieldRec newName oldName (renameFieldRec oldName newName r) = r) := by
  have hlnone : lookupField r newName = none := by
    rw [hasField_eq_isSome] at hn
    cases h : lookupField r newName with
    | none => rfl
    | some v => rw [h] at hn; simp at hn
  cases ho : lookupField r oldName with
  | none =>
    have h1 : renameFieldRec oldName newName r = r :=
      renameFieldRec_of_lookup_none oldName newName r ho
    have h2 : renameFieldRec newName oldName r = r :=
      renameFieldRec_of_lookup_none newName oldName r hlnone
    rw [h1, h2]
    exact ⟨fun f => rfl, fun _ => rfl⟩
  | some v =>
    have hno : newName ≠ oldName := by
      intro he
      rw [he, ho] at hlnone
      exact Option.noConfusion hlnone
    have hrm : hasField (removeFieldRec oldName r) newName = false := by
      rw [hasField_removeFieldRec_ne r oldName newName hno]
      exact hn
    have hro : renameFieldRec oldName newName r
        = removeFieldRec oldName r ++ [(newName, v)] := by
      rw [renameFieldRec_of_lookup_some oldName newName r v ho,
        setField_eq_append _ _ _ hrm]
    have hl1 : lookupField (removeFieldRec oldName r ++ [(newName, v)]) newName = some v := by
      rw [lookupField_append_right _ _ _ hrm]
      simp [lookupField]
    have hrem : removeFieldRec newName (removeFieldRec oldName r ++ [(newName, v)])
        = removeFieldRec oldName r := by
      rw [removeFieldRec_append]
      have hx : removeFieldRec newName (removeFieldRec oldName r) = removeFieldRec oldName r :=
        removeFieldRec_eq_self _ _ hrm
      have hy : removeFieldRec newName [(newName, v)] = ([] : Rec) := by
        simp [removeFieldRec]
      rw [hx, hy, List.append_nil]
    have hr2 : renameFieldRec newName oldName (renameFieldRec oldName newName r)
        = removeFieldRec oldName r ++ [(oldName, v)] := by
      rw [hro, renameFieldRec_of_lookup_some newName oldName _ v hl1, hrem,
        setField_eq_append _ _ _ (hasField_removeFieldRec_self r oldName)]
    constructor
    · intro f
      rw [hr2]
      by_cases hf : f = oldName
      · subst hf
        rw [lookupField_append_right _ _ _ (hasField_removeFieldRec_self r f), ho]
        simp [lookupField]
      · cases hrf : lookupField (removeFieldRec oldName r) f with
        | some w =>
          rw [lookupField_append_left _ _ _ _ hrf]
          rw [lookupField_removeFieldRec_ne r oldName f hf] at hrf
          exact hrf.symm
        | none =>
          have hhf : hasField (removeFieldRec oldName r) f = false := by
            rw [hasField_eq_isSome, hrf]; rfl
          rw [lookupField_append_right _ _ _ hhf]
          have hrn : lookupField r f = none := by
            rw [← lookupField_removeFieldRec_ne r oldName f hf, hrf]
          rw [hrn]
          simp [lookupField, Ne.symm hf]
    · intro hfalse
      rw [hasField_eq_isSome, ho] at hfalse
      simp at hfalse

/-- C7: for a store in which no record contains the target field name, renaming
a field and then renaming it back restores in every record every field's value
(in particular the original field under its original name), and every record
that never had the old field is returned literally unchanged by the two runs.
The first conjunct identifies the store after both runs with the per-record
round trip that the second conjunct characterises. -/
theorem renameField_roundtrip (oldName newName : String) (st : Store)
    (hn : ∀ shard ∈ st.shards, ∀ r ∈ shard, hasField r newName = false) :
    (((renameField allOk newName oldName
        ((renameField allOk oldName newName st).1)).1).shards
      = st.shards.map (List.map
          (fun r => renameFieldRec newName oldName (renameFieldRec oldName newName r)))) ∧
    (∀ shard ∈ st.shards, ∀ r ∈ shard,
      (∀ f, lookupField (renameFieldRec newName oldName (renameFieldRec oldName newName r)) f
          = lookupField r f) ∧
      (hasField r oldName = false →
        renameFieldRec newName oldName (renameFieldRec oldName newName r) = r)) := by
  constructor
  · have hb : allOk.backupOk = true := rfl
    have hone : ∀ (o2 n2 : String) (s : Store), (renameField allOk o2 n2 s).1
        = ⟨s.shards.map (List.map (renameFieldRec o2 n2)), s.shards :: s.backups⟩ := by
      intro o2 n2 s
      simp [renameField, runMutation, hb,
        mutateFiles_map allOk (List.map (renameFieldRec o2 n2)) (fun _ => rfl) 0]
    rw [hone, hone]
    simp [List.map_map, Function.comp]
  · intro shard hs r hr
    exact renameFieldRec_roundtrip_rec oldName newName r (hn shard hs r hr)

/-- The store used by the rename round-trip witness: one record has the old
field, one does not, and none has the new name. -/
def rnStore : Store :=
  ⟨[[[("id", JValue.str "p1"), ("currentPrice", JValue.num 100)]],
    [[("id", JValue.str "p2")]]], []⟩

/-- C7 witness: the round trip on the concrete rename store. -/
theorem renameField_roundtrip_witness :
    ((renameField allOk "price_current" "currentPrice"
        ((renameField allOk "currentPrice" "price_current" rnStore).1)).1).shards
      = rnStore.shards.map (List.map (fun r =>
          renameFieldRec "price_current" "currentPrice"
            (renameFieldRec "currentPrice" "price_current" r))) :=
  (renameField_roundtrip "currentPrice" "price_current" rnStore (by decide)).1

/-! ## Concrete products used by witnesses -/

/-- A demo product of the rare rarity. -/
def prodA : Product :=
  ⟨"p1", "Labubu A", "Labubu A EN", "exciting-macaron", "rare", 100, 99,
   "#FFFFFF", "", "active", "2024-01-15", ""⟩

/-- A demo product of the normal rarity. -/
def prodB : Product :=
  ⟨"p2", "Labubu B", "", "coca-cola", "normal", 50, 50,
   "#000000", "", "active", "2023-05-01", ""⟩

/-- A demo product of the hidden rarity. -/
def prodHidden : Product :=
  ⟨"p3", "Hidden One", "", "coca-cola", "hidden", 500, 100,
   "#123456", "", "limited", "2024-03-02", ""⟩

/-- A second demo product of the rare rarity. -/
def prodRare : Product :=
  ⟨"p4", "Rare One", "", "exciting-macaron", "rare", 150, 100,
   "#654321", "", "active", "2022-11-30", ""⟩

/-- The demo collection. -/
def demoProducts : List Product := [prodA, prodB, prodHidden, prodRare]

/-! ## Claim C3 -/

theorem callStep_steady (s : LoaderState) (pid : Nat)
    (h1 : s.allProducts = none) (h2 : s.loadPromise = some pid) :
    callStep s = (s, CallResult.awaitPromise pid) := by
  obtain ⟨a, p, c, x⟩ := s
  simp only at h1 h2
  subst h1
  subst h2
  rfl

theorem iterCalls_steady (n : Nat) (s : LoaderState) (pid : Nat)
    (h1 : s.allProducts = none) (h2 : s.loadPromise = some pid) :
    iterCalls n s = (s, List.replicate n (CallResult.awaitPromise pid)) := by
  induction n with
  | zero => rfl
  | succ m ih =>
    simp [iterCalls, callStep_steady s pid h1 h2, ih, List.replicate_succ]

/-- C3: any positive number of loadAllProducts calls issued before the first
load completes starts performLoad exactly once; every caller awaits the same
in-flight promise and hence receives the same eventual collection; after the
promise resolves, a further call returns the cached value without starting
another load, and only an explicit cache reset makes the next call load
again. -/
theorem load_single_flight (n : Nat) (hn : 1 ≤ n) (r : List Product)
    (rho : Nat → List Product) :
    ((iterCalls n initLoader).1.performLoadCount = 1) ∧
    (∀ res ∈ (iterCalls n initLoader).2, res = CallResult.awaitPromise 0) ∧
    (∀ res ∈ (iterCalls n initLoader).2, eventualValue res rho = rho 0) ∧
    ((callStep (resolveStep (iterCalls n initLoader).1 r)).2 = CallResult.value r) ∧
    ((callStep (resolveStep (iterCalls n initLoader).1 r)).1.performLoadCount = 1) ∧
    ((callStep (resetCache (resolveStep (iterCalls n initLoader).1 r))).1.performLoadCount
      = 2) := by
  obtain ⟨m, rfl⟩ : ∃ m, n = m + 1 := ⟨n - 1, by omega⟩
  have hstep : callStep initLoader
      = (⟨none, some 0, 1, 1⟩, CallResult.awaitPromise 0) := rfl
  have hiter : iterCalls (m + 1) initLoader
      = (⟨none, some 0, 1, 1⟩,
         CallResult.awaitPromise 0 :: List.replicate m (CallResult.awaitPromise 0)) := by
    simp [iterCalls, hstep, iterCalls_steady m ⟨none, some 0, 1, 1⟩ 0 rfl rfl]
  rw [hiter]
  refine ⟨rfl, ?_, ?_, rfl, rfl, rfl⟩
  · intro res hres
    rcases List.mem_cons.mp hres with h | h
    · exact h
    · exact List.eq_of_mem_replicate h
  · intro res hres
    rcases List.mem_cons.mp hres with h | h
    · rw [h]; rfl
    · rw [List.eq_of_mem_replicate h]; rfl

/-- C3 witness: three concurrent calls start one load; after resolution the
cached value is returned. -/
theorem load_single_flight_witness :
    ((iterCalls 3 initLoader).1.performLoadCount = 1) ∧
    ((callStep (resolveStep (iterCalls 3 initLoader).1 demoProducts)).2
      = CallResult.value demoProducts) :=
  ⟨(load_single_flight 3 (by decide) demoProducts (fun _ => demoProducts)).1,
   (load_single_flight 3 (by decide) demoProducts (fun _ => demoProducts)).2.2.2.1⟩

/-! ## Claim C9 -/

/-- C9: a shard whose import or parse fails is skipped: the load still
completes with the flattened contents of every other shard, exactly as if the
malformed shard were not listed; the failed shard's records are absent. -/
theorem load_skips_malformed_shard (idx : ProductIndex)
    (imports : String → Except String (List Product))
    (pre post : List SeriesInfo) (bad : SeriesInfo)
    (hidx : idx.series = pre ++ bad :: post)
    (hbad : ∃ e, imports bad.fileName = Except.error e) :
    (performLoad (Except.ok idx) imports
      = Except.ok (((pre ++ post).map (loadSeriesResult imports)).flatten)) ∧
    (performLoad (Except.ok idx) imports
      = performLoad (Except.ok ⟨pre ++ post, idx.totalSeries⟩) imports) := by
  obtain ⟨e, he⟩ := hbad
  have hbadload : loadSeriesResult imports bad = [] := by
    unfold loadSeriesResult
    rw [he]
  constructor
  · simp [performLoad, hidx, hbadload]
  · simp [performLoad, hidx, hbadload]

/-- Index entry of a well-formed series file. -/
def goodA : SeriesInfo := ⟨"a", "a.json"⟩

/-- Index entry of the malformed series file. -/
def badB : SeriesInfo := ⟨"b", "b.json"⟩

/-- Index entry of another well-formed series file. -/
def goodC : SeriesInfo := ⟨"c", "c.json"⟩

/-- A three-series index whose middle series file is malformed. -/
def demoIndex : ProductIndex := ⟨[goodA, badB, goodC], 3⟩

/-- Import behaviour for the demo index: the middle file fails to parse. -/
def demoImports : String → Except String (List Product) := fun f =>
  if f = "b.json" then .error "SyntaxError"
  else if f = "a.json" then .ok [prodA]
  else .ok [prodB]

/-- C9 witness: loading the demo index skips the malformed middle shard and
returns the two healthy shards' records. -/
theorem load_skips_malformed_shard_witness :
    performLoad (Except.ok demoIndex) demoImports
      = Except.ok ((([goodA] ++ [goodC]).map (loadSeriesResult demoImports)).flatten) :=
  (load_skips_malformed_shard demoIndex demoImports [goodA] [goodC] badB rfl
    ⟨"SyntaxError", rfl⟩).1

/-! ## Claim C8 -/

/-- C8 (counterexample): the claim says an absent identifier yields a NotFound
result value rather than an exception; the code instead throws an Error when
the identifier misses. -/
theorem lookup_absent_throws_cex :
    (getProductById demoProducts "zz" = DetailOutcome.thrown "找不到指定的產品") ∧
    (getProductById demoProducts "zz" ≠ DetailOutcome.notFoundValue) := by
  constructor
  · decide
  · decide

/-- C8 (amended): lookup returns the matching record (with up to four related
products) when the identifier is present; when it is absent, it throws an
Error — it never produces a NotFound result value. -/
theorem lookup_semantics (l : List Product) (id : String) :
    ((∃ p ∈ l, p.id = id) →
      ∃ p rel, getProductById l id = DetailOutcome.ok p rel ∧ p.id = id ∧ p ∈ l) ∧
    ((∀ p ∈ l, p.id ≠ id) →
      getProductById l id = DetailOutcome.thrown "找不到指定的產品") ∧
    (getProductById l id ≠ DetailOutcome.notFoundValue) := by
  cases hfind : l.find? (fun p => p.id == id) with
  | none =>
    have hnone : ∀ p ∈ l, ¬ p.id = id := by
      intro p hp
      have hx := List.find?_eq_none.mp hfind p hp
      simpa using hx
    refine ⟨?_, ?_, ?_⟩
    · rintro ⟨p, hp, hid⟩
      exact absurd hid (hnone p hp)
    · intro _
      unfold getProductById
      rw [hfind]
    · unfold getProductById
      rw [hfind]
      simp
  | some p =>
    have hmem : p ∈ l := List.mem_of_find?_eq_some hfind
    have hid : p.id = id := by
      have hx := List.find?_some hfind
      simpa using hx
    refine ⟨?_, ?_, ?_⟩
    · intro _
      refine ⟨p, (l.filter (fun q => q.series == p.series && !(q.id == id))).take 4,
        ?_, hid, hmem⟩
      unfold getProductById
      rw [hfind]
    · intro hall
      exact absurd hid (hall p hmem)
    · unfold getProductById
      rw [hfind]
      simp

/-- C8 witness for the amended statement: a present identifier is returned as
an ok outcome; an absent identifier is the thrown outcome. -/
theorem lookup_semantics_witness :
    (∃ p rel, getProductById demoProducts "p2" = DetailOutcome.ok p rel
        ∧ p.id = "p2" ∧ p ∈ demoProducts) ∧
    (getProductById demoProducts "none-such" = DetailOutcome.thrown "找不到指定的產品") :=
  ⟨(lookup_semantics demoProducts "p2").1 ⟨prodB, by decide, rfl⟩,
   (lookup_semantics demoProducts "none-such").2.1 (by decide)⟩

/-! ## Claim C10 -/

theorem mem_sortInsert (cmp : Product → Product → Int) (x z : Product) :
    ∀ l : List Product, z ∈ sortInsert cmp x l → z = x ∨ z ∈ l := by
  intro l
  induction l with
  | nil =>
    intro h
    simp [sortInsert] at h
    exact Or.inl h
  | cons y ys ih =>
    intro h
    by_cases hc : cmp x y ≤ 0
    · simp only [sortInsert, if_pos hc, List.mem_cons] at h
      rcases h with h | h | h
      · exact Or.inl h
      · exact Or.inr (by simp [h])
      · exact Or.inr (by simp [h])
    · simp only [sortInsert, if_neg hc, List.mem_cons] at h
      rcases h with h | h
      · exact Or.inr (by simp [h])
      · rcases ih h with h2 | h2
        · exact Or.inl h2
        · exact Or.inr (List.mem_cons_of_mem y h2)

theorem mem_stableSort (cmp : Product → Product → Int) (z : Product) :
    ∀ l : List Product, z ∈ stableSort cmp l → z ∈ l := by
  intro l
  induction l with
  | nil => intro h; simp [stableSort] at h
  | cons x xs ih =>
    intro h
    rcases mem_sortInsert cmp x z (stableSort cmp xs) h with h2 | h2
    · simp [h2]
    · exact List.mem_cons_of_mem x (ih h2)

theorem filterProducts_sublist (ps : ProductListRequest) (l : List Product) :
    List.Sublist (filterProducts ps l) l := by
  have hif : ∀ (b : Prop) (inst : Decidable b) (f : Product → Bool) (L : List Product),
      List.Sublist (if b then L.filter f else L) L := by
    intro b inst f L
    split
    · exact List.filter_sublist L
    · exact List.Sublist.refl L
  have hmatch : ∀ (o : Option Int) (f : Int → Product → Bool) (L : List Product),
      List.Sublist (match o with
        | some m => L.filter (f m)
        | none => L) L := by
    intro o f L
    cases o
    · exact List.Sublist.refl L
    · exact List.filter_sublist L
  unfold filterProducts
  refine List.Sublist.trans (hmatch ps.maxPrice _ _) ?_
  refine List.Sublist.trans (hmatch ps.minPrice _ _) ?_
  refine List.Sublist.trans (hif _ _ _ _) ?_
  refine List.Sublist.trans (hif _ _ _ _) ?_
  exact hif _ _ _ _

/-- C10: the query is a pure read of the module-level collection: the
collection after a query is the one before it, a second query with the same
parameters against the unchanged collection returns an identical response,
and every returned record is an element of the collection (the query slices a
filtered and sorted copy, never modified records). -/
theorem query_pure_frame (store : List Product) (ps : ProductListRequest) :
    ((getProductsSt store ps).1 = store) ∧
    ((getProductsSt ((getProductsSt store ps).1) ps).2 = (getProductsSt store ps).2) ∧
    (∀ p ∈ (getProductsSt store ps).2.products, p ∈ store) := by
  refine ⟨rfl, rfl, ?_⟩
  intro p hp
  have h1 : p ∈ sortedFiltered ps store := by
    have hs : ((sortedFiltered ps store).drop ((ps.page - 1) * ps.limit)).take ps.limit
        ⊆ sortedFiltered ps store := fun a ha =>
      (List.drop_sublist _ _).subset ((List.take_sublist _ _).subset ha)
    exact hs hp
  have h2 : p ∈ filterProducts ps store := mem_stableSort _ p _ h1
  exact (filterProducts_sublist ps store).subset h2

/-! ## Claim C5 -/

theorem cmpProducts_rarity (ord : String) (a b : Product) :
    cmpProducts "rarity" ord a b =
      (if rarityOrder a.rarityLevel < rarityOrder b.rarityLevel then
        (if ord = "asc" then -1 else 1)
      else if rarityOrder b.rarityLevel < rarityOrder a.rarityLevel then
        (if ord = "asc" then 1 else -1)
      else 0) := by
  have h1 : sortVal "rarity" a = SortVal.n (rarityOrder a.rarityLevel) := rfl
  have h2 : sortVal "rarity" b = SortVal.n (rarityOrder b.rarityLevel) := rfl
  unfold cmpProducts
  rw [h1, h2]
  simp [svLt]

theorem cmpProducts_rarity_asc_le (a b : Product) :
    cmpProducts "rarity" "asc" a b ≤ 0 ↔
      rarityOrder a.rarityLevel ≤ rarityOrder b.rarityLevel := by
  rw [cmpProducts_rarity]
  split_ifs <;> simp_all <;> omega

theorem sortInsert_pairwise (cmp : Product → Product → Int)
    (htot : ∀ a b, cmp a b ≤ 0 ∨ cmp b a ≤ 0)
    (htrans : ∀ a b c, cmp a b ≤ 0 → cmp b c ≤ 0 → cmp a c ≤ 0)
    (x : Product) :
    ∀ l : List Product, l.Pairwise (fun a b => cmp a b ≤ 0) →
      (sortInsert cmp x l).Pairwise (fun a b => cmp a b ≤ 0) := by
  intro l
  induction l with
  | nil => intro _; simp [sortInsert]
  | cons y ys ih =>
    intro hl
    rw [List.pairwise_cons] at hl
    obtain ⟨hy, hys⟩ := hl
    by_cases hc : cmp x y ≤ 0
    · simp only [sortInsert, if_pos hc]
      rw [List.pairwise_cons]
      refine ⟨?_, ?_⟩
      · intro z hz
        rcases List.mem_cons.mp hz with rfl | hz2
        · exact hc
        · exact htrans x y z hc (hy z hz2)
      · rw [List.pairwise_cons]
        exact ⟨hy, hys⟩
    · simp only [sortInsert, if_neg hc]
      rw [List.pairwise_cons]
      refine ⟨?_, ih hys⟩
      intro z hz
      rcases mem_sortInsert cmp x z ys hz with hzx | hz2
      · rw [hzx]
        rcases htot x y with h | h
        · exact absurd h hc
        · exact h
      · exact hy z hz2

theorem stableSort_pairwise (cmp : Product → Product → Int)
    (htot : ∀ a b, cmp a b ≤ 0 ∨ cmp b a ≤ 0)
    (htrans : ∀ a b c, cmp a b ≤ 0 → cmp b c ≤ 0 → cmp a c ≤ 0) :
    ∀ l : List Product, (stableSort cmp l).Pairwise (fun a b => cmp a b ≤ 0) := by
  intro l
  induction l with
  | nil => simp [stableSort]
  | cons x xs ih => exact sortInsert_pairwise cmp htot htrans x _ ih

theorem stableSort_rarity_sorted (l : List Product) :
    (stableSort (cmpProducts "rarity" "asc") l).Pairwise
      (fun a b => rarityOrder a.rarityLevel ≤ rarityOrder b.rarityLevel) := by
  have h := stableSort_pairwise (cmpProducts "rarity" "asc")
    (fun a b => by
      rw [cmpProducts_rarity_asc_le, cmpProducts_rarity_asc_le]
      omega)
    (fun a b c hab hbc => by
      rw [cmpProducts_rarity_asc_le] at hab hbc ⊢
      omega) l
  exact h.imp (fun hab => (cmpProducts_rarity_asc_le _ _).mp hab)

theorem cmpProducts_eq_zero_of_sortVal_eq (sb ord : String) (a b : Product)
    (h : sortVal sb a = sortVal sb b) : cmpProducts sb ord a b = 0 := by
  unfold cmpProducts
  rw [h]
  have hx : svLt (sortVal sb b) (sortVal sb b) = false := by
    cases sortVal sb b <;> simp [svLt]
  simp [hx]

theorem filter_sortInsert (sb ord : String) (k : SortVal) (x : Product) :
    ∀ l : List Product,
      (sortInsert (cmpProducts sb ord) x l).filter (fun p => sortVal sb p == k)
        = if sortVal sb x == k then x :: l.filter (fun p => sortVal sb p == k)
          else l.filter (fun p => sortVal sb p == k) := by
  intro l
  induction l with
  | nil => by_cases hk : sortVal sb x = k <;> simp [sortInsert, hk]
  | cons y ys ih =>
    by_cases hc : cmpProducts sb ord x y ≤ 0
    · simp only [sortInsert, if_pos hc]
      by_cases hk : sortVal sb x = k <;> simp [List.filter_cons, hk]
    · simp only [sortInsert, if_neg hc]
      by_cases hk : sortVal sb x = k
      · by_cases hky : sortVal sb y = k
        · exact absurd (by
            rw [cmpProducts_eq_zero_of_sortVal_eq sb ord x y (by rw [hk, hky])]) hc
        · simp [List.filter_cons, hk, hky, ih]
      · simp [List.filter_cons, hk, ih]

theorem filter_stableSort (sb ord : String) (k : SortVal) :
    ∀ l : List Product,
      (stableSort (cmpProducts sb ord) l).filter (fun p => sortVal sb p == k)
        = l.filter (fun p => sortVal sb p == k) := by
  intro l
  induction l with
  | nil => rfl
  | cons x xs ih =>
    rw [show stableSort (cmpProducts sb ord) (x :: xs)
        = sortInsert (cmpProducts sb ord) x (stableSort (cmpProducts sb ord) xs) from rfl]
    rw [filter_sortInsert sb ord k x (stableSort (cmpProducts sb ord) xs)]
    by_cases hk : sortVal sb x = k <;> simp [List.filter_cons, hk, ih]

/-- C5: the rarity sort orders records by the fixed ordinal rank table — the
comparator is exactly the rank comparison, the ascending rarity sort produces
a list ordered by rank, and a hidden-rarity record sorts after a rare-rarity
record in ascending order even though the string "hidden" is lexicographically
smaller than "rare" — and for every sort key the sort is stable: filtering the
sorted list to any fixed key value returns those records in their pre-sort
relative order. -/
theorem rarity_rank_sort_stable :
    (∀ (ord : String) (a b : Product),
      cmpProducts "rarity" ord a b =
        (if rarityOrder a.rarityLevel < rarityOrder b.rarityLevel then
          (if ord = "asc" then -1 else 1)
        else if rarityOrder b.rarityLevel < rarityOrder a.rarityLevel then
          (if ord = "asc" then 1 else -1)
        else 0)) ∧
    (∀ l : List Product, (stableSort (cmpProducts "rarity" "asc") l).Pairwise
      (fun a b => rarityOrder a.rarityLevel ≤ rarityOrder b.rarityLevel)) ∧
    ((stableSort (cmpProducts "rarity" "asc") [prodHidden, prodRare]
        = [prodRare, prodHidden]) ∧
      prodHidden.rarityLevel.data < prodRare.rarityLevel.data) ∧
    (∀ (sb ord : String) (k : SortVal) (l : List Product),
      (stableSort (cmpProducts sb ord) l).filter (fun p => sortVal sb p == k)
        = l.filter (fun p => sortVal sb p == k)) :=
  ⟨cmpProducts_rarity, stableSort_rarity_sorted, ⟨by decide, by decide⟩,
    fun sb ord k l => filter_stableSort sb ord k l⟩

/-! ## Claim C4 -/

theorem length_sortInsert (cmp : Product → Product → Int) (x : Product) :
    ∀ l : List Product, (sortInsert cmp x l).length = l.length + 1 := by
  intro l
  induction l with
  | nil => rfl
  | cons y ys ih =>
    by_cases hc : cmp x y ≤ 0 <;> simp [sortInsert, hc, ih]

theorem length_stableSort (cmp : Product → Product → Int) :
    ∀ l : List Product, (stableSort cmp l).length = l.length := by
  intro l
  induction l with
  | nil => rfl
  | cons x xs ih => simp [stableSort, length_sortInsert, ih]

theorem ceilDiv_eq_zero (m len : Nat) (hm : 1 ≤ m) (h : ceilDiv len m = 0) : len = 0 := by
  unfold ceilDiv at h
  by_contra hlen
  have h2 : m ≤ len + m - 1 := by omega
  have h3 : 1 ≤ (len + m - 1) / m := (Nat.one_le_div_iff (by omega)).mpr h2
  omega

theorem ceilDiv_succ_sub (m len k : Nat) (hm : 1 ≤ m) (h : ceilDiv len m = k + 1) :
    ceilDiv (len - m) m = k ∧ 1 ≤ len := by
  have hpos : 1 ≤ len := by
    by_contra hlen
    have h0 : len = 0 := by omega
    subst h0
    have hz : ceilDiv 0 m = 0 := Nat.div_eq_of_lt (by omega)
    omega
  refine ⟨?_, hpos⟩
  unfold ceilDiv at h ⊢
  by_cases hle : len ≤ m
  · have h1 : len - m = 0 := by omega
    rw [h1]
    have h2 : (0 + m - 1) / m = 0 := Nat.div_eq_of_lt (by omega)
    have h3 : (len + m - 1) / m < 2 := by
      rw [Nat.div_lt_iff_lt_mul (by omega)]
      omega
    omega
  · have h1 : len - m + m - 1 = len - 1 := by omega
    rw [h1]
    have h2 : len + m - 1 = (len - 1) + m := by omega
    rw [h2, Nat.add_div_right _ (by omega)] at h
    omega

theorem le_ceilDiv_mul (len m : Nat) (hm : 1 ≤ m) : len ≤ ceilDiv len m * m := by
  have h := le_smul_ceilDiv (α := ℕ) (β := ℕ) (a := m) (b := len) (by omega)
  rw [smul_eq_mul, Nat.ceilDiv_eq_add_pred_div, Nat.mul_comm] at h
  exact h

theorem flatten_chunks {α : Type} (m : Nat) (hm : 1 ≤ m) :
    ∀ (n : Nat) (L : List α), ceilDiv L.length m = n →
      ((List.range n).map (fun i => (L.drop (i * m)).take m)).flatten = L := by
  intro n
  induction n with
  | zero =>
    intro L hL
    have h0 : L.length = 0 := ceilDiv_eq_zero m L.length hm hL
    have h1 : L = [] := List.length_eq_zero.mp h0
    subst h1
    rfl
  | succ k ih =>
    intro L hL
    obtain ⟨hk, hpos⟩ := ceilDiv_succ_sub m L.length k hm hL
    have hdrop : ceilDiv (L.drop m).length m = k := by
      rw [List.length_drop]
      exact hk
    have hih := ih (L.drop m) hdrop
    rw [List.range_succ_eq_map, List.map_cons, List.flatten_cons, List.map_map]
    have hfun : ((fun i => (L.drop (i * m)).take m) ∘ Nat.succ)
        = fun i => ((L.drop m).drop (i * m)).take m := by
      funext i
      simp only [Function.comp]
      have h2 : (L.drop m).drop (i * m) = L.drop (Nat.succ i * m) := by
        rw [List.drop_drop]
        congr 1
        rw [Nat.succ_mul]
        exact Nat.add_comm m (i * m)
      rw [h2]
    rw [hfun, hih]
    simp

/-- C4: for any page size of at least one, concatenating the record slices of
pages 1 through totalPages reproduces the filtered-and-sorted working list
exactly (no duplicate, no omission, in sort order), the reported total equals
the filtered set's size, and any page number beyond totalPages yields an
empty record slice rather than an error. -/
theorem pagination_partition (ps : ProductListRequest) (l : List Product)
    (hlim : 1 ≤ ps.limit) :
    (((List.range (getProducts ps l).totalPages).map
        (fun i => (getProducts { ps with page := i + 1 } l).products)).flatten
      = sortedFiltered ps l) ∧
    ((getProducts ps l).total = (filterProducts ps l).length) ∧
    (∀ q, (getProducts ps l).totalPages < q →
      (getProducts { ps with page := q } l).products = []) := by
  have hprod : ∀ q : Nat, (getProducts { ps with page := q } l).products
      = ((sortedFiltered ps l).drop ((q - 1) * ps.limit)).take ps.limit := fun q => rfl
  have htp : (getProducts ps l).totalPages
      = ceilDiv (sortedFiltered ps l).length ps.limit := rfl
  refine ⟨?_, ?_, ?_⟩
  · rw [htp]
    have hmapeq : (List.range (ceilDiv (sortedFiltered ps l).length ps.limit)).map
        (fun i => (getProducts { ps with page := i + 1 } l).products)
        = (List.range (ceilDiv (sortedFiltered ps l).length ps.limit)).map
          (fun i => ((sortedFiltered ps l).drop (i * ps.limit)).take ps.limit) :=
      List.map_congr_left (fun i _ => hprod (i + 1))
    rw [hmapeq]
    exact flatten_chunks ps.limit hlim _ (sortedFiltered ps l) rfl
  · rw [show (getProducts ps l).total = (sortedFiltered ps l).length from rfl]
    unfold sortedFiltered
    exact length_stableSort _ _
  · intro q hq
    rw [hprod q]
    have h1 : (sortedFiltered ps l).length
        ≤ ceilDiv (sortedFiltered ps l).length ps.limit * ps.limit :=
      le_ceilDiv_mul _ _ hlim
    rw [htp] at hq
    have h2 : ceilDiv (sortedFiltered ps l).length ps.limit ≤ q - 1 := by omega
    have h3 : (sortedFiltered ps l).length ≤ (q - 1) * ps.limit :=
      le_trans h1 (Nat.mul_le_mul_right _ h2)
    rw [List.drop_eq_nil_of_le h3]
    exact List.take_nil

/-- The query parameters of the pagination witness: price-ascending, two
records per page. -/
def demoParams : ProductListRequest :=
  ⟨1, 2, "", [], [], none, none, "price", "asc"⟩

/-- C4 witness: at the demo collection with page size 2, the concatenated
pages reproduce the sorted filtered list, the total is the filtered size, and
page 5 is an empty slice. -/
theorem pagination_partition_witness :
    (((List.range (getProducts demoParams demoProducts).totalPages).map
        (fun i => (getProducts { demoParams with page := i + 1 } demoProducts).products)).flatten
      = sortedFiltered demoParams demoProducts) ∧
    ((getProducts demoParams demoProducts).total
      = (filterProducts demoParams demoProducts).length) ∧
    ((getProducts { demoParams with page := 5 } demoProducts).products = []) :=
  ⟨(pagination_partition demoParams demoProducts (by decide)).1,
   (pagination_partition demoParams demoProducts (by decide)).2.1,
   (pagination_partition demoParams demoProducts (by decide)).2.2 5 (by decide)⟩

end Catalog
